import Mathlib

/-!
Shallow embedding of the statistical-simulation notebooks
(`Step 1 Basics of randomness & simulation`, `Step 4 Advanced Applications
of Simulation`, the resampling chapter and the probability / data-generating
-process chapter) and proofs about the embedded exercises.

Random draws made by `numpy.random` are modelled as explicit inputs: each
embedded exercise takes the sequence of values produced by its sampler calls
as an argument, so that statements quantify over every possible sequence of
draws.  Floating-point numbers are modelled by exact rationals where the
exercise only adds, subtracts, multiplies and divides, and by real (or
complex) numbers where it takes roots, powers or uses `π`.
-/

namespace StatSim

/-- Arithmetic mean of a list of rationals, as `np.mean` / `ndarray.mean`
computes it on the exact values: sum divided by length (`0` for the empty
list, since `q / 0 = 0` in `ℚ`). -/
def listMean (xs : List ℚ) : ℚ := xs.sum / xs.length

/-- Reading a list at each index of `range l.length` reproduces the list. -/
theorem map_getD_range {α : Type} (d : α) (l : List α) :
    (List.range l.length).map (fun i => l.getD i d) = l := by
  induction l with
  | nil => simp
  | cons a t ih =>
    simp only [List.length_cons, List.range_succ_eq_map, List.map_cons,
      List.map_map, List.getD_cons_zero]
    refine congrArg (a :: ·) ?_
    have hstep : List.map ((fun i => (a :: t).getD i d) ∘ Nat.succ) (List.range t.length)
        = List.map (fun i => t.getD i d) (List.range t.length) :=
      List.map_congr_left (fun i _ => by simp)
    rw [hstep, ih]

/-- Bridge between a sum of a mapped `List.range` and a `Finset.range` sum. -/
theorem sum_map_range (f : ℕ → ℚ) (n : ℕ) :
    ((List.range n).map f).sum = ∑ i ∈ Finset.range n, f i := rfl

/-- Removing the `i`-th element of a list removes exactly its value from the
sum. -/
theorem sum_eraseIdx (xs : List ℚ) (i : ℕ) (h : i < xs.length) :
    (xs.eraseIdx i).sum = xs.sum - xs.getD i 0 := by
  induction xs generalizing i with
  | nil => simp at h
  | cons a t ih =>
    cases i with
    | zero => simp
    | succ j =>
      simp only [List.length_cons, Nat.succ_lt_succ_iff] at h
      simp only [List.eraseIdx_cons_succ, List.sum_cons, ih j h,
        List.getD_cons_succ]
      ring

/-! ### Basic jackknife estimation - mean (resampling chapter)

```python
mean_lengths, n = [], len(wrench_lengths)
index = np.arange(n)
for i in range(n):
    jk_sample = wrench_lengths[index != i]
    mean_lengths.append(jk_sample.mean())
mean_lengths_jk = np.mean(np.array(mean_lengths))
```
-/

/-- One leave-one-out jackknife sample: `wrench_lengths[index != i]` keeps
every observation except the `i`-th, in order. -/
def jkSample (xs : List ℚ) (i : ℕ) : List ℚ := xs.eraseIdx i

/-- The list `mean_lengths` built by the jackknife loop: the mean of each
leave-one-out sample, for `i` in `range(n)`. -/
def jkMeanLengths (xs : List ℚ) : List ℚ :=
  (List.range xs.length).map (fun i => listMean (jkSample xs i))

/-- `mean_lengths_jk = np.mean(np.array(mean_lengths))`: the jackknife
estimate of the mean. -/
def jackknifeEstimateMean (xs : List ℚ) : ℚ := listMean (jkMeanLengths xs)

theorem jkMeanLengths_length (xs : List ℚ) :
    (jkMeanLengths xs).length = xs.length := by
  simp [jkMeanLengths]

/-- C4: the jackknife estimate of the mean is exactly the sample mean. -/
theorem jackknife_mean_eq_sample_mean (xs : List ℚ) (h : 2 ≤ xs.length) :
    jackknifeEstimateMean xs = listMean xs := by
  have hn : (1:ℚ) ≤ (xs.length : ℚ) := by exact_mod_cast Nat.one_le_of_lt h
  have hn0 : (xs.length : ℚ) ≠ 0 := by positivity
  have hn1 : (xs.length : ℚ) - 1 ≠ 0 := by
    have h2 : (2:ℚ) ≤ (xs.length : ℚ) := by exact_mod_cast h
    intro hc
    nlinarith
  have hcast : ((xs.length - 1 : ℕ) : ℚ) = (xs.length : ℚ) - 1 := by
    have : 1 ≤ xs.length := Nat.one_le_of_lt h
    push_cast [this]
    ring
  have hterm : ∀ i ∈ Finset.range xs.length,
      listMean (jkSample xs i) =
        (xs.sum - xs.getD i 0) / ((xs.length : ℚ) - 1) := by
    intro i hi
    rw [Finset.mem_range] at hi
    unfold listMean jkSample
    rw [sum_eraseIdx xs i hi, List.length_eraseIdx, if_pos hi, hcast]
  have hsum : (jkMeanLengths xs).sum = xs.sum := by
    unfold jkMeanLengths
    rw [sum_map_range, Finset.sum_congr rfl hterm, ← Finset.sum_div,
      Finset.sum_sub_distrib, Finset.sum_const, Finset.card_range]
    have hx : ∑ i ∈ Finset.range xs.length, xs.getD i 0 = xs.sum := by
      rw [← sum_map_range]
      exact congrArg List.sum (map_getD_range 0 xs)
    rw [hx, nsmul_eq_mul]
    field_simp
    ring
  unfold jackknifeEstimateMean listMean
  rw [hsum, jkMeanLengths_length]

/-- Witness for C4 at the concrete sample `[0, 2]`. -/
theorem jackknife_mean_eq_sample_mean_witness :
    2 ≤ ([0, 2] : List ℚ).length ∧
      jackknifeEstimateMean [0, 2] = listMean [0, 2] :=
  ⟨by simp, jackknife_mean_eq_sample_mean [0, 2] (by simp)⟩

/-! ### Running a simple bootstrap (resampling chapter)

```python
mean_lengths, sims = [], 1000
for i in range(sims):
    temp_sample = np.random.choice(wrench_lengths, replace=True, size=len(wrench_lengths))
    sample_mean = temp_sample.mean()
    mean_lengths.append(sample_mean)
boot_mean = np.mean(mean_lengths)
boot_95_ci = np.percentile(mean_lengths, [2.5, 97.5])
```
-/

/-- `np.random.choice(xs, replace=True, size=idx.length)`: `idx` records the
random indices drawn by the sampler (sampling with replacement draws every
index independently from `range xs.length`); the resample reads `xs` at
those indices. -/
def npChoice (xs : List ℚ) (idx : List ℕ) : List ℚ := idx.map (fun j => xs.getD j 0)

/-- The list `mean_lengths` built by the bootstrap loop, appending the mean
of each resample in turn. -/
def bootstrapLoop (xs : List ℚ) (draws : List (List ℕ)) : List ℚ :=
  draws.foldl (fun acc idx => acc ++ [listMean (npChoice xs idx)]) []

/-- `np.percentile(xs, q)` with numpy's default linear interpolation: with
the data sorted ascending and `pos = q/100 * (n-1)`, the result interpolates
between the entries at index `⌊pos⌋` and the following index (clipped to
`n-1`). -/
def npPercentile (xs : List ℚ) (q : ℚ) : ℚ :=
  let sorted := xs.mergeSort (fun a b => decide (a ≤ b))
  let pos : ℚ := q / 100 * ((xs.length : ℚ) - 1)
  let i : ℕ := ⌊pos⌋.toNat
  let j : ℕ := min (i + 1) (xs.length - 1)
  sorted.getD i 0 + (pos - ⌊pos⌋) * (sorted.getD j 0 - sorted.getD i 0)

/-- Output of the simple-bootstrap exercise:
`(boot_mean, boot_95_ci[0], boot_95_ci[1])`. -/
def simpleBootstrap (xs : List ℚ) (draws : List (List ℕ)) : ℚ × ℚ × ℚ :=
  let means := bootstrapLoop xs draws
  (listMean means, npPercentile means (2.5 : ℚ), npPercentile means (97.5 : ℚ))

/-- A loop that appends `f x` for each `x` builds the map of `f`. -/
theorem foldl_append_eq_map {α β : Type} (f : α → β) (l : List α) (acc : List β) :
    l.foldl (fun a x => a ++ [f x]) acc = acc ++ l.map f := by
  induction l generalizing acc with
  | nil => simp
  | cons x t ih => simp [ih]

theorem bootstrapLoop_eq_map (xs : List ℚ) (draws : List (List ℕ)) :
    bootstrapLoop xs draws = draws.map (fun idx => listMean (npChoice xs idx)) := by
  unfold bootstrapLoop
  rw [foldl_append_eq_map, List.nil_append]

/-- C1: in the simple bootstrap, every resample has the size of the original
sample, the recorded statistic of each resample is its arithmetic mean, the
bootstrapped mean is the arithmetic mean of the `1000` resample means, and
the 95% CI is the pair of the 2.5th and 97.5th percentiles of those means. -/
theorem simple_bootstrap_spec (xs : List ℚ) (draws : List (List ℕ))
    (hreps : draws.length = 1000)
    (hsize : ∀ idx ∈ draws, idx.length = xs.length) :
    (∀ idx ∈ draws, (npChoice xs idx).length = xs.length) ∧
    bootstrapLoop xs draws = draws.map (fun idx => listMean (npChoice xs idx)) ∧
    (simpleBootstrap xs draws).1 =
      (draws.map (fun idx => listMean (npChoice xs idx))).sum / 1000 ∧
    (simpleBootstrap xs draws).2.1 = npPercentile (bootstrapLoop xs draws) (2.5 : ℚ) ∧
    (simpleBootstrap xs draws).2.2 = npPercentile (bootstrapLoop xs draws) (97.5 : ℚ) := by
  refine ⟨?_, bootstrapLoop_eq_map xs draws, ?_, rfl, rfl⟩
  · intro idx hidx
    simpa [npChoice] using hsize idx hidx
  · show listMean (bootstrapLoop xs draws) = _
    rw [bootstrapLoop_eq_map]
    unfold listMean
    rw [List.length_map, hreps]
    norm_num

/-- Witness for C1 on the sample `[10]` with 1000 constant index draws. -/
theorem simple_bootstrap_spec_witness :
    ((List.replicate 1000 [0]).length = 1000 ∧
      (∀ idx ∈ List.replicate 1000 [0], idx.length = ([(10:ℚ)]).length)) ∧
    ((∀ idx ∈ List.replicate 1000 [0], (npChoice [(10:ℚ)] idx).length = ([(10:ℚ)]).length) ∧
      bootstrapLoop [(10:ℚ)] (List.replicate 1000 [0]) =
        (List.replicate 1000 [0]).map (fun idx => listMean (npChoice [(10:ℚ)] idx)) ∧
      (simpleBootstrap [(10:ℚ)] (List.replicate 1000 [0])).1 =
        ((List.replicate 1000 [0]).map (fun idx => listMean (npChoice [(10:ℚ)] idx))).sum / 1000 ∧
      (simpleBootstrap [(10:ℚ)] (List.replicate 1000 [0])).2.1 =
        npPercentile (bootstrapLoop [(10:ℚ)] (List.replicate 1000 [0])) (2.5 : ℚ) ∧
      (simpleBootstrap [(10:ℚ)] (List.replicate 1000 [0])).2.2 =
        npPercentile (bootstrapLoop [(10:ℚ)] (List.replicate 1000 [0])) (97.5 : ℚ)) := by
  have h1 : (List.replicate 1000 [0]).length = 1000 := List.length_replicate 1000 [0]
  have h2 : ∀ idx ∈ List.replicate 1000 ([0] : List ℕ), idx.length = ([(10:ℚ)]).length := by
    intro idx hidx
    rw [List.eq_of_mem_replicate hidx]
    simp
  exact ⟨⟨h1, h2⟩, simple_bootstrap_spec [(10:ℚ)] (List.replicate 1000 [0]) h1 h2⟩

/-! ### Hypothesis testing - difference of means (permutation test)

```python
perm = np.array([np.random.permutation(len(donations_A) + len(donations_B)) for i in range(reps)])
permuted_A_datasets = data[perm[:, :len(donations_A)]]
permuted_B_datasets = data[perm[:, len(donations_A):]]
samples = permuted_A_datasets.mean(axis=1) - permuted_B_datasets.mean(axis=1)
test_stat = donations_A.mean() - donations_B.mean()
p_val = 2*np.sum(samples >= np.abs(test_stat))/reps
```
-/

/-- Fancy indexing `data[indices]`: read `data` at each listed index. -/
def npIndex (data : List ℚ) (indices : List ℕ) : List ℚ :=
  indices.map (fun j => data.getD j 0)

/-- The null distribution `samples`: for each drawn permutation `p` of
`range (len_A + len_B)` the mean of the permuted A part (the first `len_A`
permuted indices into `data = A ++ B`) minus the mean of the permuted B
part (the remaining indices). -/
def permutationSamples (A B : List ℚ) (perms : List (List ℕ)) : List ℚ :=
  perms.map (fun p =>
    listMean (npIndex (A ++ B) (p.take A.length)) -
      listMean (npIndex (A ++ B) (p.drop A.length)))

/-- `p_val = 2*np.sum(samples >= np.abs(test_stat))/reps` with
`test_stat = donations_A.mean() - donations_B.mean()` and `reps` the number
of drawn permutations. -/
def permTestPval (A B : List ℚ) (perms : List (List ℕ)) : ℚ :=
  2 * ((permutationSamples A B perms).countP
        (fun s => decide (|listMean A - listMean B| ≤ s)) : ℚ) / perms.length

/-- C2: for 1000 drawn permutations the reported p-value is twice the number
of permuted-dataset mean differences that weakly exceed the absolute observed
difference in means, divided by 1000. -/
theorem permTestPval_spec (A B : List ℚ) (perms : List (List ℕ))
    (hreps : perms.length = 1000) :
    permTestPval A B perms =
      2 * (((permutationSamples A B perms).filter
            (fun s => decide (|listMean A - listMean B| ≤ s))).length : ℚ) / 1000 := by
  unfold permTestPval
  rw [List.countP_eq_length_filter, hreps]
  norm_num

/-- Witness for C2 on `A = B = [1]` with 1000 copies of the identity
permutation. -/
theorem permTestPval_spec_witness :
    (List.replicate 1000 [0, 1]).length = 1000 ∧
      permTestPval [1] [1] (List.replicate 1000 [0, 1]) =
        2 * (((permutationSamples [1] [1] (List.replicate 1000 [0, 1])).filter
              (fun s => decide (|listMean [1] - listMean [1]| ≤ s))).length : ℚ) / 1000 :=
  ⟨List.length_replicate 1000 [0, 1],
    permTestPval_spec [1] [1] (List.replicate 1000 [0, 1]) (List.length_replicate 1000 [0, 1])⟩

theorem permutationSamples_const :
    permutationSamples [1] [1] (List.replicate 1000 [0, 1]) =
      List.replicate 1000 0 := by
  unfold permutationSamples
  rw [List.map_replicate]
  norm_num [npIndex, listMean]

/-- C8: the permutation-test p-value always lies in `[0, 2]`, and on some
inputs (for instance identical one-element groups) it strictly exceeds 1, so
the doubled one-sided count is not capped at 1. -/
theorem permTestPval_range :
    (∀ (A B : List ℚ) (perms : List (List ℕ)),
        0 ≤ permTestPval A B perms ∧ permTestPval A B perms ≤ 2) ∧
    ∃ (A B : List ℚ) (perms : List (List ℕ)),
        perms.length = 1000 ∧ 1 < permTestPval A B perms := by
  constructor
  · intro A B perms
    unfold permTestPval
    constructor
    · positivity
    · rcases Nat.eq_zero_or_pos perms.length with h0 | hpos
      · rw [h0]
        norm_num
      · have hlen : ((permutationSamples A B perms).countP
            (fun s => decide (|listMean A - listMean B| ≤ s)) : ℚ) ≤ (perms.length : ℚ) := by
          have := List.countP_le_length
            (p := fun s => decide (|listMean A - listMean B| ≤ s))
            (l := permutationSamples A B perms)
          have hsl : (permutationSamples A B perms).length = perms.length := by
            simp [permutationSamples]
          exact_mod_cast hsl ▸ this
        have hposq : (0:ℚ) < (perms.length : ℚ) := by exact_mod_cast hpos
        rw [div_le_iff₀ hposq]
        linarith
  · refine ⟨[1], [1], List.replicate 1000 [0, 1], List.length_replicate 1000 [0, 1], ?_⟩
    unfold permTestPval
    rw [permutationSamples_const]
    norm_num [List.countP_replicate]

/-! ### Shuffling a deck of cards / Two of a kind

```python
np.random.shuffle(deck_of_cards)            # Step 1 notebook
card_choices_after_shuffle = deck_of_cards[:3]

n_sims, two_kind = 10000, 0                 # probability chapter
for i in range(n_sims):
    np.random.shuffle(deck_of_cards)
    hand, cards_in_hand = deck_of_cards[0:5], {}
    for card in hand:
        cards_in_hand[card[1]] = cards_in_hand.get(card[1], 0) + 1
    highest_card = max(cards_in_hand.values())
    if highest_card>=2:
        two_kind += 1
```
-/

/-- A playing card of the imported `deck_of_cards` dataset: a
`(suit, value)` pair, with the suit encoded as a number. -/
abbrev Card := ℕ × ℕ

/-- `np.random.shuffle` permutes a sequence in place: `σ` records the random
rearrangement of `range l.length` drawn by the shuffle, and the sequence's
new content reads the old one at those indices. -/
def npShuffle (σ : List ℕ) (l : List Card) : List Card :=
  σ.map (fun i => l.getD i (0, 0))

/-- The `Shuffling a deck of cards` exercise: shuffle the imported deck in
place and take its top three cards; the pair holds the deck object's state
after the cell and the printed cards. -/
def shuffleDeckExercise (σ : List ℕ) (deck : List Card) : List Card × List Card :=
  let shuffled := npShuffle σ deck
  (shuffled, shuffled.take 3)

/-- `max(cards_in_hand.values())`, where the dict `cards_in_hand` counts how
often each numeric value `card[1]` occurs in the hand. -/
def highestCount (hand : List Card) : ℕ :=
  ((hand.map Prod.snd).map (fun v => (hand.map Prod.snd).count v)).foldr max 0

/-- The `Two of a kind` exercise: `n_sims` times, shuffle the imported deck
in place, look at its top five cards and bump the counter when some value
occurs at least twice in the hand; returns the deck object's state after the
cell together with the final counter. -/
def twoKindExercise (σs : List (List ℕ)) (deck : List Card) : List Card × ℕ :=
  σs.foldl (fun st σ =>
    let d := npShuffle σ st.1
    (d, st.2 + if 2 ≤ highestCount (d.take 5) then 1 else 0)) (deck, 0)

/-- An in-place shuffle along a drawn permutation of the index range yields a
permutation of the original list. -/
theorem npShuffle_perm (σ : List ℕ) (l : List Card)
    (h : σ.Perm (List.range l.length)) : (npShuffle σ l).Perm l := by
  have h2 : (npShuffle σ l).Perm (npShuffle (List.range l.length) l) :=
    List.Perm.map _ h
  have h3 : npShuffle (List.range l.length) l = l := map_getD_range (0, 0) l
  rwa [h3] at h2

theorem twoKind_foldl_perm (deck : List Card) (σs : List (List ℕ)) :
    ∀ st : List Card × ℕ, st.1.Perm deck →
      (∀ τ ∈ σs, τ.Perm (List.range deck.length)) →
      (σs.foldl (fun st σ =>
        let d := npShuffle σ st.1
        (d, st.2 + if 2 ≤ highestCount (d.take 5) then 1 else 0)) st).1.Perm deck := by
  induction σs with
  | nil => intro st hst _; simpa using hst
  | cons τ rest ih =>
    intro st hst hτs
    have hτ : τ.Perm (List.range st.1.length) := by
      rw [hst.length_eq]
      exact hτs τ (List.mem_cons_self τ rest)
    have hd : (npShuffle τ st.1).Perm deck := (npShuffle_perm τ st.1 hτ).trans hst
    exact ih _ hd (fun ρ hρ => hτs ρ (List.mem_cons_of_mem τ hρ))

/-- C5 counterexample: `np.random.shuffle` mutates the shared imported deck
in place — when the shuffle draws the transposition `[1, 0]` on a two-card
deck, the deck object left behind by the `Shuffling a deck of cards` cell
(and likewise by the `Two of a kind` cell) differs from the original deck
read by later exercises. -/
theorem shuffle_mutates_deck :
    (shuffleDeckExercise [1, 0] [(0, 1), (1, 2)]).1 ≠ [(0, 1), (1, 2)] ∧
      (twoKindExercise [[1, 0]] [(0, 1), (1, 2)]).1 ≠ [(0, 1), (1, 2)] := by
  constructor <;> decide

/-- C5 amended: the shuffling exercises permute the shared deck in place:
whenever every drawn shuffle is a permutation of the index range, the deck
object after the `Shuffling a deck of cards` cell and after the
`Two of a kind` cell holds exactly the original multiset of cards, though in
general in a different order. -/
theorem shuffle_exercises_permute_deck (deck : List Card) (σ : List ℕ)
    (σs : List (List ℕ)) (hσ : σ.Perm (List.range deck.length))
    (hσs : ∀ τ ∈ σs, τ.Perm (List.range deck.length)) :
    ((shuffleDeckExercise σ deck).1).Perm deck ∧
      ((twoKindExercise σs deck).1).Perm deck :=
  ⟨npShuffle_perm σ deck hσ,
    twoKind_foldl_perm deck σs (deck, 0) (List.Perm.refl deck) hσs⟩

/-- Witness for the amended C5 on a concrete two-card deck and the drawn
transposition `[1, 0]`. -/
theorem shuffle_exercises_permute_deck_witness :
    (([1, 0] : List ℕ).Perm (List.range ([(0, 1), (1, 2)] : List Card).length) ∧
      (∀ τ ∈ [[1, 0]], τ.Perm (List.range ([(0, 1), (1, 2)] : List Card).length))) ∧
    (((shuffleDeckExercise [1, 0] [(0, 1), (1, 2)]).1).Perm [(0, 1), (1, 2)] ∧
      ((twoKindExercise [[1, 0]] [(0, 1), (1, 2)]).1).Perm [(0, 1), (1, 2)]) := by
  have h1 : ([1, 0] : List ℕ).Perm (List.range ([(0, 1), (1, 2)] : List Card).length) := by
    decide
  have h2 : ∀ τ ∈ [[1, 0]], τ.Perm (List.range ([(0, 1), (1, 2)] : List Card).length) := by
    decide
  exact ⟨⟨h1, h2⟩, shuffle_exercises_permute_deck [(0, 1), (1, 2)] [1, 0] [[1, 0]] h1 h2⟩

/-! ### The three unbounded while loops

`Calculating a break-even lottery price` (Step 1), the birthday-problem loop
(probability chapter) and `Power Analysis - Part II` (Step 4).
-/

/-- One iteration of the break-even loop at ticket cost `c`: the outcomes
drawn by `np.random.choice([-c, grand_prize - c], size=3000, p=...)` with
`grand_prize = 1000000`, recorded through the individual win/lose draws
`ws`. -/
def lotteryOutcomes (c : ℚ) (ws : List Bool) : List ℚ :=
  ws.map (fun w => if w then 1000000 - c else -c)

/-- The break-even loop starts at `lottery_ticket_cost = 0`, increments the
cost by one each iteration, and stops as soon as the simulated mean payoff
is negative; at iteration `k` the cost is therefore `k`. -/
def lotteryLoopTerminates (draws : ℕ → List Bool) : Prop :=
  ∃ k : ℕ, listMean (lotteryOutcomes (k : ℚ) (draws k)) < 0

/-- The lottery loop exits for every draw sequence: once the ticket cost
exceeds the grand prize, every outcome is negative. -/
theorem lotteryLoop_terminates (draws : ℕ → List Bool)
    (h : ∀ k, (draws k).length = 3000) : lotteryLoopTerminates draws := by
  refine ⟨1000001, ?_⟩
  rw [show (((1000001:ℕ)):ℚ) = 1000001 from by norm_num]
  have hle : ∀ x ∈ lotteryOutcomes 1000001 (draws 1000001), x ≤ -1 := by
    intro x hx
    unfold lotteryOutcomes at hx
    rw [List.mem_map] at hx
    obtain ⟨w, _, rfl⟩ := hx
    cases w <;> norm_num
  have hsum := List.sum_le_card_nsmul _ _ hle
  have hlen : (lotteryOutcomes 1000001 (draws 1000001)).length = 3000 := by
    unfold lotteryOutcomes
    rw [List.length_map, h]
  rw [hlen] at hsum
  unfold listMean
  rw [hlen]
  have hneg : (lotteryOutcomes 1000001 (draws 1000001)).sum < 0 := by
    have hns : ((3000:ℕ) • (-1 : ℚ)) = -3000 := by
      rw [nsmul_eq_mul]
      norm_num
    rw [hns] at hsum
    linarith
  have : (0:ℚ) < ((3000 : ℕ) : ℚ) := by norm_num
  exact div_neg_of_neg_of_pos hneg this

/-- One call `birthday_sim(people)`: `draws` holds the 2000 sampled birthday
lists (each one `np.random.choice(days, size=people, replace=True)` over
`days = 1..365`), a simulation counts as unique when no two sampled
birthdays coincide (`len(draw) == len(set(draw))`), and the result is
`1 - unique_birthdays / 2000`. -/
def birthdaySim (draws : List (List ℕ)) : ℚ :=
  1 - (draws.countP (fun d => decide (d.length = d.dedup.length)) : ℚ) / 2000

/-- The birthday loop starts at `people = 2` and increments the head count
until the simulated match probability exceeds one half; at iteration `k` the
head count is `2 + k`. -/
def birthdayLoopTerminates (oracle : ℕ → List (List ℕ)) : Prop :=
  ∃ k, 1 / 2 < birthdaySim (oracle k)

/-- The birthday loop exits for every draw sequence: with 366 people, every
sampled list of birthdays from a 365-day year repeats a day, so the match
probability is 1. -/
theorem birthdayLoop_terminates (oracle : ℕ → List (List ℕ))
    (hcount : ∀ k, (oracle k).length = 2000)
    (hlen : ∀ k, ∀ d ∈ oracle k, d.length = 2 + k)
    (hval : ∀ k, ∀ d ∈ oracle k, ∀ x ∈ d, x ∈ Finset.Icc 1 365) :
    birthdayLoopTerminates oracle := by
  refine ⟨364, ?_⟩
  have hcnt : (oracle 364).countP (fun d => decide (d.length = d.dedup.length)) = 0 := by
    rw [List.countP_eq_zero]
    intro d hd
    simp only [decide_eq_true_eq]
    intro heq
    have h1 : d.dedup.toFinset.card = d.dedup.length :=
      List.toFinset_card_of_nodup (List.nodup_dedup d)
    have h2 : d.dedup.toFinset ⊆ Finset.Icc 1 365 := by
      intro x hx
      rw [List.mem_toFinset, List.mem_dedup] at hx
      exact hval 364 d hd x hx
    have h3 : d.dedup.toFinset.card ≤ (Finset.Icc (1:ℕ) 365).card :=
      Finset.card_le_card h2
    rw [Nat.card_Icc] at h3
    have h4 : d.length = 2 + 364 := hlen 364 d hd
    omega
  rw [birthdaySim, hcnt]
  norm_num

/-- Pooled two-sample t statistic computed by `scipy.stats.ttest_ind` with
its default `equal_var=True`: difference of the sample means over the pooled
standard error. -/
noncomputable def tStat (x y : List ℝ) : ℝ :=
  let n : ℝ := x.length
  let m : ℝ := y.length
  let mx := x.sum / n
  let my := y.sum / m
  let vx := (x.map (fun a => (a - mx) ^ 2)).sum / (n - 1)
  let vy := (y.map (fun a => (a - my) ^ 2)).sum / (m - 1)
  (mx - my) /
    (Real.sqrt (((n - 1) * vx + (m - 1) * vy) / (n + m - 2)) *
      Real.sqrt (1 / n + 1 / m))

/-- One iteration of the power-analysis loop: `ttest_ind` on the
`(sample_size, sims)`-shaped normal draws yields one p-value per simulated
experiment (per column), `p < 0.05` holds exactly when `|t|` exceeds the
positive two-sided critical value `crit` of the t distribution, and `power`
is the fraction of significant columns among the 1000 simulations. -/
noncomputable def powerOf (crit : ℝ) (cols : List (List ℝ × List ℝ)) : ℝ :=
  ((cols.filter (fun col =>
    @decide (crit < |tStat col.1 col.2|) (Classical.propDecidable _))).length : ℝ) / 1000

/-- The power-analysis loop starts at `sample_size = 50`, adds 10 each
iteration, and stops when the simulated power reaches `0.80`; `oracle k`
holds the treatment/control columns drawn at iteration `k`. -/
def powerLoopTerminates (crit : ℝ) (oracle : ℕ → List (List ℝ × List ℝ)) : Prop :=
  ∃ k, (0.80 : ℝ) ≤ powerOf crit (oracle k)

/-- The draw sequence in which every normal draw comes out `0`: at iteration
`k`, all 1000 simulated experiments see identical treatment and control
samples of the current sample size `50 + 10 * k`. -/
noncomputable def zeroDrawOracle : ℕ → List (List ℝ × List ℝ) := fun k =>
  List.replicate 1000 (List.replicate (50 + 10 * k) 0, List.replicate (50 + 10 * k) 0)

/-- The t statistic of two all-zero samples vanishes. -/
theorem tStat_zero (n m : ℕ) :
    tStat (List.replicate n (0:ℝ)) (List.replicate m (0:ℝ)) = 0 := by
  unfold tStat
  simp [List.sum_replicate]

/-- On the all-zero draw sequence the simulated power is always `0`. -/
theorem powerOf_zeroDrawOracle (crit : ℝ) (hc : 0 < crit) (k : ℕ) :
    powerOf crit (zeroDrawOracle k) = 0 := by
  unfold powerOf zeroDrawOracle
  have hfil : (List.replicate 1000
      ((List.replicate (50 + 10 * k) (0:ℝ)), List.replicate (50 + 10 * k) (0:ℝ))).filter
        (fun col =>
          @decide (crit < |tStat col.1 col.2|) (Classical.propDecidable _)) = [] := by
    rw [List.filter_eq_nil_iff]
    intro col hcol
    rw [List.eq_of_mem_replicate hcol]
    simp only [decide_eq_true_eq, not_lt]
    rw [tStat_zero]
    rw [abs_zero]
    exact hc.le
  rw [hfil]
  norm_num

/-- C3 counterexample: the power-analysis while loop does not terminate for
every sequence of values produced by its random draws.  On the draw sequence
where every normal draw returns `0`, all t statistics are `0`, no simulated
experiment is ever significant, the power stays `0 < 0.80` at every sample
size, and the loop never exits — whatever the (positive) two-sided critical
value of the t test is. -/
theorem powerLoop_diverges_on_zero_draws :
    ¬ ∃ crit : ℝ, 0 < crit ∧ powerLoopTerminates crit zeroDrawOracle := by
  rintro ⟨crit, hc, k, hk⟩
  rw [powerOf_zeroDrawOracle crit hc k] at hk
  norm_num at hk

/-- C3 amended: the break-even lottery loop and the birthday loop terminate
for every sequence of values their random draws can produce, while the
power-analysis loop admits a draw sequence of the required shape on which it
never terminates, whatever the positive critical value of its t test. -/
theorem while_loop_termination (ld : ℕ → List Bool) (bd : ℕ → List (List ℕ))
    (hl : ∀ k, (ld k).length = 3000)
    (hbcount : ∀ k, (bd k).length = 2000)
    (hblen : ∀ k, ∀ d ∈ bd k, d.length = 2 + k)
    (hbval : ∀ k, ∀ d ∈ bd k, ∀ x ∈ d, x ∈ Finset.Icc 1 365) :
    lotteryLoopTerminates ld ∧ birthdayLoopTerminates bd ∧
      ∃ oracle : ℕ → List (List ℝ × List ℝ),
        (∀ k, (oracle k).length = 1000 ∧
          ∀ col ∈ oracle k, col.1.length = 50 + 10 * k ∧ col.2.length = 50 + 10 * k) ∧
        ∀ crit : ℝ, 0 < crit → ¬ powerLoopTerminates crit oracle := by
  refine ⟨lotteryLoop_terminates ld hl,
    birthdayLoop_terminates bd hbcount hblen hbval, zeroDrawOracle, ?_, ?_⟩
  · intro k
    refine ⟨List.length_replicate 1000 _, ?_⟩
    intro col hcol
    rw [List.eq_of_mem_replicate hcol]
    exact ⟨List.length_replicate _ _, List.length_replicate _ _⟩
  · rintro crit hcrit ⟨k, hk⟩
    rw [powerOf_zeroDrawOracle crit hcrit k] at hk
    norm_num at hk

/-- Witness for the amended C3 on concrete draw sequences: the lottery draws
always win, and every birthday drawn is day 1. -/
theorem while_loop_termination_witness :
    ((∀ k, ((fun _ : ℕ => List.replicate 3000 true) k).length = 3000) ∧
      (∀ k, ((fun j : ℕ => List.replicate 2000 (List.replicate (2 + j) 1)) k).length = 2000) ∧
      (∀ k, ∀ d ∈ (fun j : ℕ => List.replicate 2000 (List.replicate (2 + j) 1)) k,
        d.length = 2 + k) ∧
      (∀ k, ∀ d ∈ (fun j : ℕ => List.replicate 2000 (List.replicate (2 + j) 1)) k,
        ∀ x ∈ d, x ∈ Finset.Icc 1 365)) ∧
    (lotteryLoopTerminates (fun _ : ℕ => List.replicate 3000 true) ∧
      birthdayLoopTerminates (fun j : ℕ => List.replicate 2000 (List.replicate (2 + j) 1)) ∧
      ∃ oracle : ℕ → List (List ℝ × List ℝ),
        (∀ k, (oracle k).length = 1000 ∧
          ∀ col ∈ oracle k, col.1.length = 50 + 10 * k ∧ col.2.length = 50 + 10 * k) ∧
        ∀ crit : ℝ, 0 < crit → ¬ powerLoopTerminates crit oracle) := by
  have h1 : ∀ k, ((fun _ : ℕ => List.replicate 3000 true) k).length = 3000 :=
    fun _ => List.length_replicate 3000 true
  have h2 : ∀ k, ((fun j : ℕ => List.replicate 2000 (List.replicate (2 + j) 1)) k).length
      = 2000 := fun _ => List.length_replicate 2000 _
  have h3 : ∀ k, ∀ d ∈ (fun j : ℕ => List.replicate 2000 (List.replicate (2 + j) 1)) k,
      d.length = 2 + k := by
    intro k d hd
    rw [List.eq_of_mem_replicate hd]
    exact List.length_replicate _ _
  have h4 : ∀ k, ∀ d ∈ (fun j : ℕ => List.replicate 2000 (List.replicate (2 + j) 1)) k,
      ∀ x ∈ d, x ∈ Finset.Icc 1 365 := by
    intro k d hd x hx
    rw [List.eq_of_mem_replicate hd] at hx
    rw [List.eq_of_mem_replicate hx]
    rw [Finset.mem_Icc]
    omega
  exact ⟨⟨h1, h2, h3, h4⟩, while_loop_termination _ _ h1 h2 h3 h4⟩

/-! ### Modeling corn production and profits (Step 4)

```python
def corn_produced(rain, cost):
  mean_corn = 100 * cost**0.1 * rain**0.2
  corn = np.random.poisson(lam=mean_corn)
  return corn

def corn_demanded(price):
    return 984 - 23 * price

def profits(cost):
    rain = np.random.normal(50, 15)
    price = np.random.normal(40, 10)
    supply = corn_produced(rain, cost)
    demand = corn_demanded(price)
    equil_short = supply <= demand
    if equil_short ==True:
        tmp = price * supply - cost
        return tmp
    else:
        tmp2 = price * demand - cost
        return tmp2
```
-/

/-- Python `x ** e` on floats: the principal power, which Python returns as
a `complex` number whenever `x` is negative and `e` is not an integer. -/
noncomputable def pyPow (x e : ℝ) : ℂ := (x : ℂ) ^ (e : ℂ)

/-- The expression `mean_corn = 100 * cost**0.1 * rain**0.2` as Python
evaluates it: a complex number when `rain < 0`. -/
noncomputable def meanCornPy (rain cost : ℝ) : ℂ :=
  100 * pyPow cost (1 / 10) * pyPow rain (1 / 5)

/-- `corn_produced`: `np.random.poisson(lam=mean_corn)` casts its argument
to a real number (the `ComplexWarning` recorded in the notebook discards the
imaginary part) and raises `ValueError` unless the resulting rate is a valid
nonnegative real; `pois` records the sampler's draw as a function of the
rate it is given. -/
noncomputable def corn_produced (pois : ℝ → ℕ) (rain cost : ℝ) : Option ℕ :=
  let lam := (meanCornPy rain cost).re
  if 0 ≤ lam then some (pois lam) else none

/-- `corn_demanded`, the linear demand guess of the Step 4 notebook. -/
def corn_demanded (price : ℝ) : ℝ := 984 - 23 * price

/-- `profits(cost)`: draw rain and price (the draws are recorded in
`rainDraw` and `priceDraw`), call `corn_produced` for the supply,
`corn_demanded` for the demand, and settle at the short side of the
market. -/
noncomputable def profits (pois : ℝ → ℕ) (rainDraw priceDraw cost : ℝ) : Option ℝ :=
  match corn_produced pois rainDraw cost with
  | none => none
  | some supply =>
      if (supply : ℝ) ≤ corn_demanded priceDraw then
        some (priceDraw * supply - cost)
      else
        some (priceDraw * corn_demanded priceDraw - cost)

/-- For nonnegative rain and cost the Python power expression is the real
rpow value. -/
theorem meanCornPy_of_nonneg (rain cost : ℝ) (hr : 0 ≤ rain) (hc : 0 ≤ cost) :
    meanCornPy rain cost =
      ((100 * cost ^ ((1:ℝ) / 10) * rain ^ ((1:ℝ) / 5) : ℝ) : ℂ) := by
  unfold meanCornPy pyPow
  rw [← Complex.ofReal_cpow hc, ← Complex.ofReal_cpow hr]
  push_cast
  ring

/-- C7 counterexample: the exponentiation inside `corn_produced` does
produce a non-real value for negative rain: at `rain = -1`, `cost = 5000`
the Python value of `mean_corn` has nonzero (indeed positive) imaginary
part. -/
theorem meanCorn_not_real_for_negative_rain :
    (meanCornPy (-1) 5000).im ≠ 0 := by
  have him : (pyPow (-1) (1 / 5)).im = Real.sin (Real.pi / 5) := by
    unfold pyPow
    have hcast : (((1:ℝ) / 5 : ℝ) : ℂ) = ((1 / 5 : ℝ) : ℂ) := by norm_num
    rw [show ((-1 : ℝ) : ℂ) = (-1 : ℂ) from by push_cast; ring]
    rw [Complex.cpow_def_of_ne_zero (by norm_num), Complex.log_neg_one]
    have h : (Real.pi : ℂ) * Complex.I * (((1:ℝ) / 5 : ℝ) : ℂ) =
        ((Real.pi / 5 : ℝ) : ℂ) * Complex.I := by
      push_cast
      ring
    rw [h, Complex.exp_ofReal_mul_I_im]
  have hsin : 0 < Real.sin (Real.pi / 5) := by
    refine Real.sin_pos_of_pos_of_lt_pi (by positivity) ?_
    have := Real.pi_pos
    linarith
  have hfac : (100 : ℂ) * pyPow 5000 (1 / 10) =
      ((100 * (5000:ℝ) ^ ((1:ℝ) / 10) : ℝ) : ℂ) := by
    unfold pyPow
    rw [← Complex.ofReal_cpow (by norm_num : (0:ℝ) ≤ 5000)]
    push_cast
    ring
  have hpos : 0 < 100 * (5000:ℝ) ^ ((1:ℝ) / 10) := by positivity
  unfold meanCornPy
  rw [hfac, Complex.mul_im]
  simp only [Complex.ofReal_re, Complex.ofReal_im, zero_mul, add_zero]
  rw [him]
  positivity

/-- For nonnegative rain and cost the rate handed to the poisson sampler is
nonnegative and `corn_produced` returns the sampler's draw. -/
theorem corn_produced_eq_of_nonneg (pois : ℝ → ℕ) (rain cost : ℝ)
    (hr : 0 ≤ rain) (hc : 0 ≤ cost) :
    0 ≤ (meanCornPy rain cost).re ∧
      corn_produced pois rain cost = some (pois ((meanCornPy rain cost).re)) := by
  have hre : 0 ≤ (meanCornPy rain cost).re := by
    rw [meanCornPy_of_nonneg rain cost hr hc, Complex.ofReal_re]
    positivity
  refine ⟨hre, ?_⟩
  unfold corn_produced
  rw [if_pos hre]

/-- C7 amended: for nonnegative rain and cost no non-sampler step of
`corn_produced` fails or produces a non-real value — the rate handed to the
`np.random.poisson` sampler is real and nonnegative, and `corn_produced`
returns the sampler's natural number; for negative rain, however, the
exponentiation itself produces a non-real (complex) value, whose imaginary
part is discarded before the sampler is called. -/
theorem corn_produced_ok_of_nonneg_rain (pois : ℝ → ℕ) (rain cost : ℝ)
    (hr : 0 ≤ rain) (hc : 0 ≤ cost) :
    (meanCornPy rain cost).im = 0 ∧
      0 ≤ (meanCornPy rain cost).re ∧
      corn_produced pois rain cost = some (pois ((meanCornPy rain cost).re)) := by
  obtain ⟨hre, heq⟩ := corn_produced_eq_of_nonneg pois rain cost hr hc
  refine ⟨?_, hre, heq⟩
  rw [meanCornPy_of_nonneg rain cost hr hc, Complex.ofReal_im]

/-- Witness for the amended C7 at `rain = 0`, `cost = 0` and the constant
zero poisson draw. -/
theorem corn_produced_ok_witness :
    ((0:ℝ) ≤ 0 ∧ (0:ℝ) ≤ 0) ∧
      ((meanCornPy 0 0).im = 0 ∧ 0 ≤ (meanCornPy 0 0).re ∧
        corn_produced (fun _ => 0) 0 0 = some 0) :=
  ⟨⟨le_refl 0, le_refl 0⟩,
    corn_produced_ok_of_nonneg_rain (fun _ => 0) 0 0 (le_refl 0) (le_refl 0)⟩

/-! ### The eCommerce ad-flow DGP (probability chapter)

```python
def get_signups(cost, ct_rate, su_rate, sims):
    lam = np.random.normal(loc=lambda_mean, scale=lambda_std, size=sims)
    impressions = np.random.poisson(lam)
    clicks = np.random.binomial(n=impressions, p=ct_rate[cost])
    signups = np.random.binomial(n=clicks, p=su_rate[cost])
    return signups

def get_revenue(signups):
    rev = []
    np.random.seed(123)
    for s in signups:
        purchases = np.random.binomial(s, p=hist_purchase_rate)
        purchase_values = np.random.exponential(scale=purchase_value_mean, size=purchases)
        rev.append(purchase_values.sum())
    return rev

sims, cost_diff = 10000, 3000
rev_low = get_revenue(get_signups('low', ct_rate, su_rate, sims))
rev_high = get_revenue(get_signups('high', ct_rate, su_rate, sims))
frac = ((np.array(rev_high) - np.array(rev_low)) < cost_diff).mean()
```
-/

/-- Interface to the global `np.random` generator: an abstract state type
`S`, reseeding (`np.random.seed`), and one deterministic transition per
sampler family, each returning the drawn value together with the successor
state. -/
structure RNG (S : Type) where
  seed : ℕ → S
  normal : ℝ → ℝ → S → ℝ × S
  poisson : ℝ → S → ℕ × S
  binomial : ℕ → ℝ → S → ℕ × S
  exponential : ℝ → S → ℝ × S

/-- Draw one value per list element with a stateful sampler, threading the
generator state left to right (the order in which numpy consumes its stream
for an array draw). -/
def drawList {S α β : Type} (f : α → S → β × S) : List α → S → List β × S
  | [], s => ([], s)
  | a :: t, s =>
      let r := f a s
      let rest := drawList f t r.2
      (r.1 :: rest.1, rest.2)

/-- `get_signups(cost, ct_rate, su_rate, sims)` with the clickthrough and
signup rates `ct` and `su` selected by the `cost` key: draw `sims` normal
rates `lam` (`lambda_mean = 100000`, `lambda_std = 2000`), then elementwise
Poisson impressions, binomial clicks and binomial signups. -/
def get_signups {S : Type} (g : RNG S) (ct su : ℝ) (sims : ℕ) (s : S) :
    List ℕ × S :=
  let lam := drawList (fun _ => g.normal 100000 2000) (List.replicate sims ()) s
  let impressions := drawList g.poisson lam.1 lam.2
  let clicks := drawList (fun n => g.binomial n ct) impressions.1 impressions.2
  drawList (fun n => g.binomial n su) clicks.1 clicks.2

/-- `np.random.exponential(scale=1000, size=purchases)`: draw
`purchases`-many exponential purchase values
(`purchase_value_mean = 1000`). -/
def drawExponentials {S : Type} (g : RNG S) : ℕ → S → List ℝ × S
  | 0, s => ([], s)
  | n + 1, s =>
      let r := g.exponential 1000 s
      let rest := drawExponentials g n r.2
      (r.1 :: rest.1, rest.2)

/-- The body of the `for s in signups` loop of `get_revenue`: draw a
binomial number of purchases (`hist_purchase_rate = 0.10`) and that many
exponential purchase values, and append the sum of the values to `rev`. -/
def revStep {S : Type} (g : RNG S) (acc : List ℝ × S) (n : ℕ) : List ℝ × S :=
  let pr := g.binomial n (0.10 : ℝ) acc.2
  let vals := drawExponentials g pr.1 pr.2
  (acc.1 ++ [vals.1.sum], vals.2)

/-- `get_revenue(signups)`: reseed the global generator with the fixed seed
123, then run the purchase loop over the signup counts.  The incoming
generator state `s` is discarded by the reseeding. -/
def get_revenue {S : Type} (g : RNG S) (signups : List ℕ) (s : S) :
    List ℝ × S :=
  signups.foldl (revStep g) (([] : List ℝ), g.seed 123)

/-- The `Probability of losing money` cell: simulate the signups and the
revenues for the low and for the high cost option and report the fraction of
simulations in which the extra revenue stays below the extra cost
(`cost_diff = 3000`). -/
noncomputable def losingMoney {S : Type} (g : RNG S)
    (ctLow ctHigh suLow suHigh : ℝ) (sims : ℕ) (s : S) : ℝ :=
  let sigLow := get_signups g ctLow suLow sims s
  let revLow := get_revenue g sigLow.1 sigLow.2
  let sigHigh := get_signups g ctHigh suHigh sims revLow.2
  let revHigh := get_revenue g sigHigh.1 sigHigh.2
  let diffs := List.zipWith (fun h l => h - l) revHigh.1 revLow.1
  ((diffs.filter (fun d => @decide (d < 3000) (Classical.propDecidable _))).length : ℝ) /
    diffs.length

/-- C9: `get_revenue` reseeds the global generator with the fixed seed 123
on every call, so it is a deterministic function of its argument: for any
generator and any two incoming generator states, calls with the same signup
list return identical revenue lists (and identical final states) — in
particular, `rev_low` and `rev_high` in `Probability of losing money` are
produced from identical random streams rather than independent ones. -/
theorem get_revenue_deterministic (S : Type) (g : RNG S) (signups : List ℕ)
    (s t : S) : get_revenue g signups s = get_revenue g signups t := rfl

/-- A degenerate deterministic generator over the unit state: the normal
sampler returns its mean, the Poisson sampler always draws 5, the binomial
sampler keeps all `n` tries as successes when `p` is at least `0.22` and
drops one otherwise, and the exponential sampler always draws `v`. -/
noncomputable def constGen (v : ℝ) : RNG Unit where
  seed := fun _ => ()
  normal := fun loc _ _ => (loc, ())
  poisson := fun _ _ => (5, ())
  binomial := fun n p _ =>
    (@ite ℕ ((0.22 : ℝ) ≤ p) (Classical.propDecidable _) n (n - 1), ())
  exponential := fun _ _ => (v, ())

theorem constGen_normal (v loc scale : ℝ) (u : Unit) :
    (constGen v).normal loc scale u = (loc, ()) := rfl

theorem constGen_poisson (v lam : ℝ) (u : Unit) :
    (constGen v).poisson lam u = (5, ()) := rfl

theorem constGen_binomial (v : ℝ) (n : ℕ) (p : ℝ) (u : Unit) :
    (constGen v).binomial n p u =
      (@ite ℕ ((0.22 : ℝ) ≤ p) (Classical.propDecidable _) n (n - 1), ()) := rfl

theorem constGen_exponential (v scale : ℝ) (u : Unit) :
    (constGen v).exponential scale u = (v, ()) := rfl

/-- Over the unit state a stateful draw is just a map. -/
theorem drawList_unit {α β : Type} (f : α → Unit → β × Unit) (l : List α)
    (u : Unit) : drawList f l u = (l.map (fun a => (f a ()).1), ()) := by
  induction l generalizing u with
  | nil => rfl
  | cons a t ih => simp [drawList, ih]

theorem drawExponentials_constGen (v : ℝ) (n : ℕ) (u : Unit) :
    drawExponentials (constGen v) n u = (List.replicate n v, ()) := by
  induction n generalizing u with
  | zero => rfl
  | succ m ih =>
    simp only [drawExponentials, constGen_exponential]
    rw [ih]
    simp [List.replicate_succ]

theorem get_signups_constGen (v : ℝ) (ct su : ℝ) (sims : ℕ) (u : Unit) :
    get_signups (constGen v) ct su sims u =
      (List.replicate sims
        (((constGen v).binomial (((constGen v).binomial 5 ct ()).1) su ()).1), ()) := by
  simp only [get_signups, drawList_unit, List.map_replicate, constGen_normal,
    constGen_poisson]

theorem revStep_constGen (v : ℝ) (acc : List ℝ) (n : ℕ) :
    revStep (constGen v) (acc, ()) n = (acc ++ [((n - 1 : ℕ)) • v], ()) := by
  unfold revStep
  simp only [constGen_binomial]
  rw [if_neg (by norm_num)]
  simp [drawExponentials_constGen, List.sum_replicate]

theorem get_revenue_constGen_aux (v : ℝ) (sig : List ℕ) (acc : List ℝ) :
    sig.foldl (revStep (constGen v)) (acc, ()) =
      (acc ++ sig.map (fun n => ((n - 1 : ℕ)) • v), ()) := by
  induction sig generalizing acc with
  | nil => simp
  | cons n t ih =>
    rw [List.foldl_cons, revStep_constGen, ih]
    simp

theorem get_revenue_constGen (v : ℝ) (sig : List ℕ) (u : Unit) :
    get_revenue (constGen v) sig u =
      (sig.map (fun n => ((n - 1 : ℕ)) • v), ()) := by
  unfold get_revenue
  have := get_revenue_constGen_aux v sig []
  simpa using this

/-- The losing-money fraction under `constGen v` and the notebook's rates:
every simulated difference in revenue equals `v`. -/
theorem losingMoney_constGen (v : ℝ) :
    losingMoney (constGen v) (0.01 : ℝ) (0.012 : ℝ) (0.2 : ℝ) (0.24 : ℝ) 10000 () =
      (((List.replicate 10000 v).filter
          (fun d => @decide (d < 3000) (Classical.propDecidable _))).length : ℝ) / 10000 := by
  unfold losingMoney
  simp only [get_signups_constGen, get_revenue_constGen, List.map_replicate]
  have hcl : ((constGen v).binomial 5 (0.01 : ℝ) ()).1 = 4 := by
    rw [constGen_binomial, if_neg (by norm_num)]
  have hch : ((constGen v).binomial 5 (0.012 : ℝ) ()).1 = 4 := by
    rw [constGen_binomial, if_neg (by norm_num)]
  have hsl : ((constGen v).binomial 4 (0.2 : ℝ) ()).1 = 3 := by
    rw [constGen_binomial, if_neg (by norm_num)]
  have hsh : ((constGen v).binomial 4 (0.24 : ℝ) ()).1 = 4 := by
    rw [constGen_binomial, if_pos (by norm_num)]
  rw [hcl, hch, hsl, hsh]
  have hzip : List.zipWith (fun h l => h - l)
      (List.replicate 10000 (((4 - 1 : ℕ)) • v)) (List.replicate 10000 (((3 - 1 : ℕ)) • v)) =
      List.replicate 10000 v := by
    rw [List.zipWith_replicate]
    norm_num [nsmul_eq_mul]
    ring
  rw [hzip, List.length_replicate]
  norm_num

/-- Filtering a replicated list keeps everything when the predicate accepts
the repeated element. -/
theorem filter_replicate_true {α : Type} (p : α → Bool) (a : α) (n : ℕ)
    (h : p a = true) : (List.replicate n a).filter p = List.replicate n a := by
  rw [List.filter_eq_self]
  intro b hb
  rw [List.eq_of_mem_replicate hb]
  exact h

/-- Filtering a replicated list drops everything when the predicate rejects
the repeated element. -/
theorem filter_replicate_false {α : Type} (p : α → Bool) (a : α) (n : ℕ)
    (h : p a = false) : (List.replicate n a).filter p = [] := by
  rw [List.filter_eq_nil_iff]
  intro b hb
  rw [List.eq_of_mem_replicate hb, h]
  exact Bool.false_ne_true

/-- `profits` with a constant poisson draw `k ≤ 961`, the mean rain draw and
a unit price settles on the supply side. -/
theorem profits_const_pois (k : ℕ) (hk : (k : ℝ) ≤ 961) :
    profits (fun _ => k) 50 1 5000 = some (1 * (k : ℝ) - 5000) := by
  unfold profits
  obtain ⟨hre, heq⟩ :=
    corn_produced_eq_of_nonneg (fun _ => k) 50 5000 (by norm_num) (by norm_num)
  rw [heq]
  have hd : corn_demanded 1 = 961 := by
    unfold corn_demanded
    norm_num
  dsimp only
  rw [if_pos (by rw [hd]; exact hk)]

/-- C6 counterexample: `profits` does invoke `corn_produced`, and the
`Probability of losing money` cell does call `get_signups` and
`get_revenue`.  Holding every other input fixed, changing only the poisson
draw made inside `corn_produced` changes the result of `profits`, and
changing only the exponential draw made inside `get_revenue` changes the
reported losing-money fraction. -/
theorem exercises_do_call_each_other :
    profits (fun _ => 0) 50 1 5000 ≠ profits (fun _ => 1) 50 1 5000 ∧
      losingMoney (constGen 0) (0.01 : ℝ) (0.012 : ℝ) (0.2 : ℝ) (0.24 : ℝ) 10000 () ≠
        losingMoney (constGen 5000) (0.01 : ℝ) (0.012 : ℝ) (0.2 : ℝ) (0.24 : ℝ) 10000 () := by
  constructor
  · rw [profits_const_pois 0 (by norm_num), profits_const_pois 1 (by norm_num)]
    intro h
    rw [Option.some_inj] at h
    norm_num at h
  · rw [losingMoney_constGen 0, losingMoney_constGen 5000]
    have hptrue : (fun d => @decide ((d:ℝ) < 3000) (Classical.propDecidable _)) 0 = true :=
      decide_eq_true (by norm_num)
    have hpfalse : (fun d => @decide ((d:ℝ) < 3000) (Classical.propDecidable _)) 5000 = false :=
      decide_eq_false (by norm_num)
    rw [filter_replicate_true _ 0 10000 hptrue,
      filter_replicate_false _ 5000 10000 hpfalse]
    norm_num

/-- C6 amended: the `profits` function invokes `corn_produced` — its output
depends on the poisson draw made inside `corn_produced` — and the
`Probability of losing money` exercise calls `get_signups` and
`get_revenue` — its output depends on the exponential draws made inside
`get_revenue`. -/
theorem profits_and_losing_money_depend_on_callees :
    (∃ pois₁ pois₂ : ℝ → ℕ,
        profits pois₁ 50 1 5000 ≠ profits pois₂ 50 1 5000) ∧
      ∃ v₁ v₂ : ℝ,
        losingMoney (constGen v₁) (0.01 : ℝ) (0.012 : ℝ) (0.2 : ℝ) (0.24 : ℝ) 10000 () ≠
          losingMoney (constGen v₂) (0.01 : ℝ) (0.012 : ℝ) (0.2 : ℝ) (0.24 : ℝ) 10000 () := by
  constructor
  · refine ⟨fun _ => 0, fun _ => 1, ?_⟩
    rw [profits_const_pois 0 (by norm_num), profits_const_pois 1 (by norm_num)]
    intro h
    rw [Option.some_inj] at h
    norm_num at h
  · refine ⟨0, 5000, ?_⟩
    rw [losingMoney_constGen 0, losingMoney_constGen 5000]
    have hptrue : (fun d => @decide ((d:ℝ) < 3000) (Classical.propDecidable _)) 0 = true :=
      decide_eq_true (by norm_num)
    have hpfalse : (fun d => @decide ((d:ℝ) < 3000) (Classical.propDecidable _)) 5000 = false :=
      decide_eq_false (by norm_num)
    rw [filter_replicate_true _ 0 10000 hptrue,
      filter_replicate_false _ 5000 10000 hpfalse]
    norm_num

/-! ### Calculating the value of pi (Step 4)

```python
sims, circle_points = 10000, 0
for i in range(sims):
    point = np.random.uniform(-1 , 1, size=2)
    within_circle = point[0]**2 + point[1]**2 <= 1
    if within_circle == True:
        circle_points +=1
pi_sim = 4 * circle_points / sims
```
-/

/-- The counter `circle_points` after `sims` iterations: the number of drawn
points (the stream `pts` records the uniform draws on `[-1,1] × [-1,1]`)
satisfying `point[0]**2 + point[1]**2 <= 1`. -/
noncomputable def circlePoints (pts : ℕ → ℝ × ℝ) (sims : ℕ) : ℕ :=
  ((List.range sims).filter (fun i =>
    @decide ((pts i).1 ^ 2 + (pts i).2 ^ 2 ≤ 1) (Classical.propDecidable _))).length

/-- `pi_sim = 4 * circle_points / sims`. -/
noncomputable def piSim (pts : ℕ → ℝ × ℝ) (sims : ℕ) : ℝ :=
  4 * (circlePoints pts sims) / sims

/-- The closed unit disc, the region whose sampled points the exercise
counts. -/
def unitDisc : Set (ℝ × ℝ) := {p : ℝ × ℝ | p.1 ^ 2 + p.2 ^ 2 ≤ 1}

/-- The sampling square `[-1,1] × [-1,1]`. -/
def sampleSquare : Set (ℝ × ℝ) := Set.Icc (-1) 1 ×ˢ Set.Icc (-1) 1

theorem volume_unitDisc :
    MeasureTheory.volume unitDisc = ENNReal.ofReal Real.pi := by
  have hpre : Set.preimage Complex.measurableEquivRealProd unitDisc =
      Metric.closedBall (0 : ℂ) 1 := by
    ext z
    simp only [Set.mem_preimage, unitDisc, Set.mem_setOf_eq,
      Complex.measurableEquivRealProd_apply, Metric.mem_closedBall,
      Complex.dist_eq, sub_zero]
    have habs : Complex.abs z ^ 2 = z.re ^ 2 + z.im ^ 2 := by
      rw [Complex.sq_abs, Complex.normSq_apply]
      ring
    constructor
    · intro h
      have h2 : Complex.abs z ^ 2 ≤ 1 := by rw [habs]; exact h
      exact (pow_le_one_iff_of_nonneg (Complex.abs.nonneg z) two_ne_zero).mp h2
    · intro h
      have h2 : Complex.abs z ^ 2 ≤ 1 :=
        (pow_le_one_iff_of_nonneg (Complex.abs.nonneg z) two_ne_zero).mpr h
      rw [habs] at h2
      exact h2
  have hmeas : MeasurableSet unitDisc := by
    have hclosed : IsClosed unitDisc := by
      have hcont : Continuous (fun p : ℝ × ℝ => p.1 ^ 2 + p.2 ^ 2) := by
        continuity
      exact isClosed_le hcont continuous_const
    exact hclosed.measurableSet
  have h := Complex.volume_preserving_equiv_real_prod.measure_preimage
    hmeas.nullMeasurableSet
  rw [hpre] at h
  rw [← h, Complex.volume_closedBall]
  rw [show ENNReal.ofReal (1:ℝ) = 1 by simp]
  rw [one_pow, one_mul, ← NNReal.coe_real_pi, ENNReal.ofReal_coe_nnreal]

theorem volume_sampleSquare : MeasureTheory.volume sampleSquare = 4 := by
  rw [sampleSquare, MeasureTheory.Measure.volume_eq_prod,
    MeasureTheory.Measure.prod_prod, Real.volume_Icc]
  rw [show ((1:ℝ) - -1) = 2 by norm_num]
  rw [show ENNReal.ofReal (2:ℝ) = 2 from ENNReal.ofReal_ofNat 2]
  norm_num

/-- C10 counterexample: the estimate does not approach `π` for every
sequence of sampled points: when every draw lands at the origin (a point of
the square), the estimate is constantly `4` from the first iteration on,
and `4` is not `π`. -/
theorem pi_estimate_not_always_convergent :
    ¬ Filter.Tendsto (fun sims => piSim (fun _ => ((0:ℝ), (0:ℝ))) sims)
        Filter.atTop (nhds Real.pi) := by
  intro h
  have hcp : ∀ sims : ℕ, circlePoints (fun _ => ((0:ℝ), (0:ℝ))) sims = sims := by
    intro sims
    unfold circlePoints
    rw [List.filter_eq_self.mpr, List.length_range]
    intro a _
    exact decide_eq_true (by norm_num)
  have hval : ∀ sims : ℕ, 1 ≤ sims →
      piSim (fun _ => ((0:ℝ), (0:ℝ))) sims = 4 := by
    intro sims hs
    unfold piSim
    rw [hcp]
    have hs0 : ((sims : ℝ)) ≠ 0 := by
      exact_mod_cast Nat.one_le_iff_ne_zero.mp hs
    field_simp
  have h4 : Filter.Tendsto (fun sims => piSim (fun _ => ((0:ℝ), (0:ℝ))) sims)
      Filter.atTop (nhds 4) := by
    refine Filter.Tendsto.congr' ?_ tendsto_const_nhds
    refine Filter.eventually_atTop.mpr ⟨1, fun s hs => ?_⟩
    exact (hval s hs).symm
  have heq := tendsto_nhds_unique h h4
  have hlt := Real.pi_lt_d2
  rw [heq] at hlt
  norm_num at hlt

/-- C10 amended: the exercise's estimate `pi_sim` is exactly four times the
fraction of sampled points inside the unit circle and always lies in
`[0, 4]`; four times the disc-to-square volume ratio is exactly `π`, and
four times the inside-fraction of a sampled point stream approaches `π`
precisely when the stream's inside-fraction approaches `π / 4` — which
uniform sampling achieves almost surely, but not for every sequence of
sampled points. -/
theorem pi_estimate_spec :
    (∀ (pts : ℕ → ℝ × ℝ) (sims : ℕ),
        piSim pts sims = 4 * ((circlePoints pts sims : ℝ) / sims) ∧
        0 ≤ piSim pts sims ∧ piSim pts sims ≤ 4) ∧
    4 * (MeasureTheory.volume unitDisc).toReal /
        (MeasureTheory.volume sampleSquare).toReal = Real.pi ∧
    ∀ pts : ℕ → ℝ × ℝ,
      Filter.Tendsto (fun sims => (circlePoints pts sims : ℝ) / sims)
          Filter.atTop (nhds (Real.pi / 4)) ↔
        Filter.Tendsto (fun sims => piSim pts sims) Filter.atTop (nhds Real.pi) := by
  have hrw : ∀ (pts : ℕ → ℝ × ℝ) (sims : ℕ),
      piSim pts sims = 4 * ((circlePoints pts sims : ℝ) / sims) := by
    intro pts sims
    unfold piSim
    rw [mul_div_assoc]
  refine ⟨?_, ?_, ?_⟩
  · intro pts sims
    refine ⟨hrw pts sims, ?_, ?_⟩
    · unfold piSim
      positivity
    · rcases Nat.eq_zero_or_pos sims with h0 | hpos
      · unfold piSim
        rw [h0]
        norm_num
      · have hle : (circlePoints pts sims : ℝ) ≤ (sims : ℝ) := by
          have : circlePoints pts sims ≤ sims := by
            unfold circlePoints
            calc ((List.range sims).filter _).length
                ≤ (List.range sims).length := List.length_filter_le _ _
              _ = sims := List.length_range sims
          exact_mod_cast this
        have hposr : (0:ℝ) < (sims : ℝ) := by exact_mod_cast hpos
        unfold piSim
        rw [div_le_iff₀ hposr]
        linarith
  · rw [volume_unitDisc, volume_sampleSquare]
    rw [ENNReal.toReal_ofReal Real.pi_pos.le]
    norm_num
  · intro pts
    constructor
    · intro h
      have h4 := h.const_mul (4:ℝ)
      rw [show (4:ℝ) * (Real.pi / 4) = Real.pi by ring] at h4
      refine h4.congr ?_
      intro sims
      exact (hrw pts sims).symm
    · intro h
      have h4 := h.const_mul ((1:ℝ)/4)
      rw [show ((1:ℝ)/4) * Real.pi = Real.pi / 4 by ring] at h4
      refine h4.congr ?_
      intro sims
      rw [hrw pts sims]
      ring

end StatSim
